import Mathlib

/-!
Verification of the self-healing code-generation loop in `agent.py`.

The development shallowly embeds the core of the program:
* the failure classifier (the `ModuleNotFoundError` regex search of line 216
  together with the alias table of lines 219-220),
* the diagnostic-text computation of line 215,
* the bounded generate–execute–diagnose–repair loop `run_agent_loop`
  (lines 189-234), with the external collaborators (model gateway,
  execution sandbox, dependency installer) supplied as oracles,
  including the uncaught `IndexError` of line 228
  (`error_msg.strip().splitlines()[-1]` on a diagnostic that strips to
  the empty string), which aborts the run before any repair request or
  exhausted report,
* the `__main__` entry point (lines 236-240),
* the pure text helpers `slugify` (lines 118-120), `fix_imports`
  (lines 137-151) and the fenced-block extraction of `query_llm`
  (lines 160-161).
-/

set_option maxHeartbeats 1000000

namespace Agent

/-- Single-quote character U+0027, written by code point. -/
def sq : Char := Char.ofNat 39

/-- Literal part of the regex of line 216:
`ModuleNotFoundError: No module named '`. -/
def mnfPrefix : List Char := "ModuleNotFoundError: No module named ".data ++ [sq]

/-- Lazy group `(.*?)` followed by the closing quote: take characters up to
the first closing quote; the dot does not match a newline (no DOTALL flag),
so a newline or the end of input before a closing quote means no match at
this position. -/
def takeName : List Char → Option (List Char)
  | [] => none
  | c :: rest =>
    if c = sq then some []
    else if c = '\n' then none
    else (takeName rest).map (fun l => c :: l)

/-- Embedding of `re.search(r"ModuleNotFoundError: No module named '(.*?)'", error_msg)`
(line 216): try a full match at each start position, left to right, and
return the captured module name of the first successful match. -/
def findModule : List Char → Option (List Char)
  | [] => none
  | c :: rest =>
    if mnfPrefix.isPrefixOf (c :: rest) then
      match takeName ((c :: rest).drop mnfPrefix.length) with
      | some name => some name
      | none => findModule rest
    else findModule rest

/-- Alias table of lines 219-220, applied sequentially as in the source. -/
def aliasPkg (p : String) : String :=
  let p1 := if p = "bs4" then "beautifulsoup4" else p
  if p1 = "sklearn" then "scikit-learn" else p1

/-- Verdict of the failure classifier (spec section 4.2). -/
inductive Classification where
  | missingDependency (pkg : String)
  | genericFailure (diag : String)
deriving DecidableEq, Repr

/-- The failure classification performed inline at lines 216-221: the
module-not-found search is tried first; on a match the module name is
mapped through the alias table, otherwise the failure is generic. -/
def classify (diag : String) : Classification :=
  match findModule diag.data with
  | some raw => .missingDependency (aliasPkg (String.mk raw))
  | none => .genericFailure diag

/-- `CalledProcessError.stdout` inside `run_agent_loop`: stdout is not
captured (`stdout=None`, line 208, inherited live), so Python sets the
exception's `stdout` attribute to `None` on every failure. -/
def calledProcessStdout : Option String := none

/-- Line 215: `error_msg = e.stderr or e.stdout or "Unknown Error"`,
with Python `or` treating the empty string and `None` as falsy. -/
def error_msg_of (stderr : String) (stdout : Option String) : String :=
  if stderr ≠ "" then stderr
  else
    match stdout with
    | some s => if s ≠ "" then s else "Unknown Error"
    | none => "Unknown Error"

/-- Python regex `\s` on the ASCII range: space, tab, newline, carriage
return, vertical tab, form feed. -/
def pyIsSpace (c : Char) : Bool :=
  c = ' ' || c = '\t' || c = '\n' || c = '\r' || c = Char.ofNat 11 || c = Char.ofNat 12

/-- Python `str.strip()` on the ASCII whitespace range. -/
def pyStrip (s : List Char) : List Char :=
  ((s.dropWhile pyIsSpace).reverse.dropWhile pyIsSpace).reverse

/-- Header written at line 196 in front of the candidate body. -/
def attempt_header (prompt : String) (attempt : Nat) : String :=
  "# TASK: " ++ prompt ++ "\n# MODE: " ++
    (if attempt > 0 then "Auto-Debugged" else "Generated") ++ "\n"

/-- `max_retries = 4` (line 194). -/
def max_retries : Nat := 4

/-- External collaborators of the loop, as oracles.  `initBody` is the
normalized body returned by the initial `get_code(prompt)` call;
`repairBody n err broken` is the normalized body returned by the repair
call made after attempt `n` failed with diagnostic `err` and body
`broken`; `execStderr n content` is `none` when running the script file
with content `content` at attempt `n` exits zero, and `some stderr`
(the captured standard error) when it exits nonzero; `installOk n pkg`
is the result of `install_package(pkg)` during attempt `n`. -/
structure Oracles where
  initBody : String
  repairBody : Nat → String → String → String
  execStderr : Nat → String → Option String
  installOk : Nat → String → Bool

/-- Observable record of one loop iteration: the 0-based attempt index,
the candidate body executed, the diagnostic computed on failure (`none`
on success), the installer invocation (package name and result) when the
failure was classified as a missing dependency, and the repaired body
when a model repair request was issued at the end of the attempt. -/
structure AttemptRec where
  idx : Nat
  body : String
  diag : Option String
  installTried : Option (String × Bool)
  repairCalled : Option String
deriving DecidableEq, Repr

/-- Terminal outcome of the loop.  `succeeded n` is the early return of
line 212.  `exhausted (some d)` is reaching the final-attempt else branch
of lines 232-234, which prints the diagnostic `d`; `exhausted none` is
falling off the end of the `for` range without that report (which happens
when the final attempt ends in `continue` after a successful install).
`crashed d` is the uncaught `IndexError` of line 228: when the diagnostic
`d` strips to the empty string, `d.strip().splitlines()` is the empty
list and indexing it with `[-1]` raises inside the except handler,
aborting the whole run before any repair request or exhausted report. -/
inductive Outcome where
  | succeeded (attempt : Nat)
  | exhausted (reported : Option String)
  | crashed (diag : String)
deriving DecidableEq, Repr

/-- The `for attempt in range(max_retries)` loop of lines 195-234, as a
fuel-indexed recursion: `fuel` is the number of remaining iterations,
`attempt` the current index and `code` the current candidate body.
Returns the per-attempt records and the terminal outcome.  Whenever a
failure is not resolved by a successful installation, control reaches
line 228 before the repair/exhaust decision of lines 230-234; when the
diagnostic strips to the empty string (a nonempty all-whitespace
stderr), `splitlines()[-1]` raises an uncaught `IndexError` and the run
aborts with `Outcome.crashed`. -/
def loopAux (o : Oracles) (prompt : String) : Nat → Nat → String → List AttemptRec × Outcome
  | 0, _, _ => ([], .exhausted none)
  | fuel + 1, attempt, code =>
    match o.execStderr attempt (attempt_header prompt attempt ++ code) with
    | none =>
      ([⟨attempt, code, none, none, none⟩], .succeeded attempt)
    | some stderr =>
      let errorMsg := error_msg_of stderr calledProcessStdout
      match classify errorMsg with
      | .missingDependency pkg =>
        if o.installOk attempt pkg then
          let r := loopAux o prompt fuel (attempt + 1) code
          (⟨attempt, code, some errorMsg, some (pkg, true), none⟩ :: r.1, r.2)
        else
          if (pyStrip errorMsg.data).isEmpty then
            ([⟨attempt, code, some errorMsg, some (pkg, false), none⟩], .crashed errorMsg)
          else if attempt < max_retries - 1 then
            let newCode := o.repairBody attempt errorMsg code
            let r := loopAux o prompt fuel (attempt + 1) newCode
            (⟨attempt, code, some errorMsg, some (pkg, false), some newCode⟩ :: r.1, r.2)
          else
            ([⟨attempt, code, some errorMsg, some (pkg, false), none⟩], .exhausted (some errorMsg))
      | .genericFailure _ =>
        if (pyStrip errorMsg.data).isEmpty then
          ([⟨attempt, code, some errorMsg, none, none⟩], .crashed errorMsg)
        else if attempt < max_retries - 1 then
          let newCode := o.repairBody attempt errorMsg code
          let r := loopAux o prompt fuel (attempt + 1) newCode
          (⟨attempt, code, some errorMsg, none, some newCode⟩ :: r.1, r.2)
        else
          ([⟨attempt, code, some errorMsg, none, none⟩], .exhausted (some errorMsg))

/-- `run_agent_loop(prompt)` (lines 189-234): fetch the initial body and
run the bounded loop from attempt 0. -/
def run_agent_loop (o : Oracles) (prompt : String) : List AttemptRec × Outcome :=
  loopAux o prompt max_retries 0 o.initBody

/-- The `__main__` block (lines 236-240): with fewer than two argv
entries, print usage and exit 1; otherwise run the loop on `argv[1]`.
The loop's return value is ignored: when the loop terminates normally
the script falls off the end (process exit status 0), but when line 228
raises the uncaught `IndexError` the interpreter aborts with a traceback
and exit status 1.  The first component is the process exit status. -/
def runMain (o : Oracles) (argv : List String) : Nat × Option (List AttemptRec × Outcome) :=
  match argv with
  | _ :: prompt :: _ =>
    let r := run_agent_loop o prompt
    ((match r.2 with
      | Outcome.crashed _ => 1
      | _ => 0), some r)
  | _ => (1, none)

/-- `re.sub(r'\s+', '_', clean)`: replace each maximal whitespace run by
one underscore.  The flag records whether we are inside a run. -/
def collapseAux : Bool → List Char → List Char
  | _, [] => []
  | inRun, c :: rest =>
    if pyIsSpace c then
      if inRun then collapseAux true rest else '_' :: collapseAux true rest
    else c :: collapseAux false rest

/-- `slugify` (lines 118-120): drop characters other than ASCII
alphanumerics and whitespace, lowercase, collapse whitespace runs to
underscores, truncate to 50 characters. -/
def slugify (text : String) : String :=
  let clean := (text.data.filter (fun c => c.isAlphanum || pyIsSpace c)).map Char.toLower
  String.mk ((collapseAux false clean).take 50)

/-- `filename = f"generated_{slug}.py"` (line 191). -/
def artifactPath (prompt : String) : String := "generated_" ++ slugify prompt ++ ".py"

/-- The file writes performed by the loop (line 197): every attempt
overwrites the artifact path with the header followed by the current
body, in attempt order. -/
def writesOf (prompt : String) (rs : List AttemptRec) : List (String × String) :=
  rs.map (fun r => (artifactPath prompt, attempt_header prompt r.idx ++ r.body))

/-- Overwrite semantics of `open(filename, "w")` on a flat file store. -/
def fsWrite (fs : List (String × String)) (w : String × String) : List (String × String) :=
  fs.filter (fun e => e.1 ≠ w.1) ++ [w]

/-- File store obtained by applying a sequence of writes to an empty
store. -/
def fsAfter (ws : List (String × String)) : List (String × String) :=
  ws.foldl fsWrite []

/-- Boolean substring test, the embedding of Python `needle in hay`. -/
def occursB (needle : List Char) : List Char → Bool
  | [] => needle.isEmpty
  | c :: rest => needle.isPrefixOf (c :: rest) || occursB needle rest

/-- Substring test on strings. -/
def strOccurs (needle hay : String) : Bool := occursB needle.data hay.data

/-- The `common_libs` table of lines 138-147, in insertion order. -/
def common_libs : List (String × String) :=
  [("requests.", "import requests"),
   ("json.", "import json"),
   ("sys.", "import sys"),
   ("os.", "import os"),
   ("pd.", "import pandas as pd"),
   ("np.", "import numpy as np"),
   ("BeautifulSoup", "from bs4 import BeautifulSoup"),
   ("yf.", "import yfinance as yf")]

/-- `"\n".join(...)`. -/
def joinNl : List String → String
  | [] => ""
  | [s] => s
  | s :: rest => s ++ "\n" ++ joinNl rest

/-- `fix_imports` (lines 137-151): inject the statement of every table
entry whose keyword occurs in the code while the statement does not,
joined by newlines and separated from the code by a blank line. -/
def fix_imports (code : String) : String :=
  let injections := (common_libs.filter (fun p => strOccurs p.1 code && !(strOccurs p.2 code))).map Prod.snd
  if injections.isEmpty then code else joinNl injections ++ "\n\n" ++ code

/-- Fence marker of the regex at line 160. -/
def fence : List Char := "```".data

/-- Optional language tag `(?:python)?` of the regex at line 160. -/
def pyTag : List Char := "python".data

/-- Lazy group `(.*?)` with DOTALL followed by the closing fence: take
characters up to the first closing fence, failing when the input ends
without one. -/
def takeUntilFence : List Char → Option (List Char)
  | [] => none
  | c :: rest =>
    if fence.isPrefixOf (c :: rest) then some []
    else (takeUntilFence rest).map (fun l => c :: l)

/-- Embedding of the fenced-block search of line 160 (a lazy DOTALL
regex between two fence markers with an optional language tag): at each
start position try
to match an opening fence, an optional `python` tag, then the lazy
interior up to a closing fence. -/
def findFenced : List Char → Option (List Char)
  | [] => none
  | c :: rest =>
    if fence.isPrefixOf (c :: rest) then
      let afterOpen := (c :: rest).drop fence.length
      let body := if pyTag.isPrefixOf afterOpen then afterOpen.drop pyTag.length else afterOpen
      match takeUntilFence body with
      | some interior => some interior
      | none => findFenced rest
    else findFenced rest

/-- Pure extraction core of `query_llm` (lines 160-161): the stripped
interior of the first complete fenced block when the regex matches, the
stripped raw response otherwise. -/
def query_llm_extract (raw : String) : String :=
  match findFenced raw.data with
  | some interior => String.mk (pyStrip interior)
  | none => String.mk (pyStrip raw.data)

/-- Diagnostic `ModuleNotFoundError: No module named 'x'` used by the
concrete runs below. -/
def msgMissingX : String := String.mk (mnfPrefix ++ ['x', sq])

/-- Concrete oracles: every execution fails with a missing-module
diagnostic and every installation succeeds. -/
def oMiss : Oracles where
  initBody := "print(1)"
  repairBody := fun _ _ _ => "print(2)"
  execStderr := fun _ _ => some msgMissingX
  installOk := fun _ _ => true

/-- Concrete oracles: every execution fails with a generic diagnostic
`boom`; repairs return distinct bodies. -/
def oGen : Oracles where
  initBody := "b0"
  repairBody := fun n _ _ => "b" ++ toString (n + 1)
  execStderr := fun _ _ => some "boom"
  installOk := fun _ _ => false

/-- Concrete oracles: attempt 0 fails with a missing-module diagnostic,
installation succeeds, attempt 1 succeeds. -/
def oInstallThenOk : Oracles where
  initBody := "print(1)"
  repairBody := fun _ _ _ => "repaired"
  execStderr := fun n _ => if n = 0 then some msgMissingX else none
  installOk := fun _ _ => true

/-- Concrete oracles: attempt 0 fails with a missing-module diagnostic,
installation fails, attempt 1 succeeds. -/
def oInstallFail : Oracles where
  initBody := "print(1)"
  repairBody := fun _ _ _ => "repaired"
  execStderr := fun n _ => if n = 0 then some msgMissingX else none
  installOk := fun _ _ => false

/-- Concrete oracles: every execution fails with a nonempty but
all-whitespace stderr, the input that makes line 228 raise. -/
def oWsStderr : Oracles where
  initBody := "print(1)"
  repairBody := fun _ _ _ => "repaired"
  execStderr := fun _ _ => some " "
  installOk := fun _ _ => false

/-- Concrete oracles: execution fails with an empty stderr. -/
def oEmptyStderr : Oracles where
  initBody := "print(1)"
  repairBody := fun _ _ _ => "repaired"
  execStderr := fun _ _ => some ""
  installOk := fun _ _ => false

/-- Attempt indices produced by the loop stay between the starting index
and the starting index plus the remaining fuel. -/
theorem loopAux_mem_idx (o : Oracles) (pr : String) :
    ∀ fuel a c, ∀ rec ∈ (loopAux o pr fuel a c).1, a ≤ rec.idx ∧ rec.idx < a + fuel := by
  intro fuel
  induction fuel with
  | zero => intro a c rec h; simp [loopAux] at h
  | succ n ih =>
    intro a c rec h
    simp only [loopAux] at h
    split at h
    · simp at h
      subst h
      exact ⟨Nat.le_refl a, Nat.lt_succ_of_le (Nat.le_add_right a n)⟩
    · split at h
      · split at h
        · simp at h
          rcases h with h | h
          · subst h; exact ⟨Nat.le_refl a, Nat.lt_succ_of_le (Nat.le_add_right a n)⟩
          · have := ih (a + 1) c rec h
            omega
        · split at h
          · simp at h
            subst h
            exact ⟨Nat.le_refl a, Nat.lt_succ_of_le (Nat.le_add_right a n)⟩
          · split at h
            · simp at h
              rcases h with h | h
              · subst h; exact ⟨Nat.le_refl a, Nat.lt_succ_of_le (Nat.le_add_right a n)⟩
              · have := ih (a + 1) _ rec h
                omega
            · simp at h
              subst h
              exact ⟨Nat.le_refl a, Nat.lt_succ_of_le (Nat.le_add_right a n)⟩
      · split at h
        · simp at h
          subst h
          exact ⟨Nat.le_refl a, Nat.lt_succ_of_le (Nat.le_add_right a n)⟩
        · split at h
          · simp at h
            rcases h with h | h
            · subst h; exact ⟨Nat.le_refl a, Nat.lt_succ_of_le (Nat.le_add_right a n)⟩
            · have := ih (a + 1) _ rec h
              omega
          · simp at h
            subst h
            exact ⟨Nat.le_refl a, Nat.lt_succ_of_le (Nat.le_add_right a n)⟩

/-- The record carrying the starting attempt index executes the current
candidate body. -/
theorem loopAux_body_at_start (o : Oracles) (pr : String) :
    ∀ fuel a c, ∀ rec ∈ (loopAux o pr fuel a c).1, rec.idx = a → rec.body = c := by
  intro fuel
  induction fuel with
  | zero => intro a c rec h; simp [loopAux] at h
  | succ n ih =>
    intro a c rec h hidx
    simp only [loopAux] at h
    split at h
    · simp at h; subst h; rfl
    · split at h
      · split at h
        · simp at h
          rcases h with h | h
          · subst h; rfl
          · have := (loopAux_mem_idx o pr n (a + 1) c rec h).1
            omega
        · split at h
          · simp at h; subst h; rfl
          · split at h
            · simp at h
              rcases h with h | h
              · subst h; rfl
              · have := (loopAux_mem_idx o pr n (a + 1) _ rec h).1
                omega
            · simp at h; subst h; rfl
      · split at h
        · simp at h; subst h; rfl
        · split at h
          · simp at h
            rcases h with h | h
            · subst h; rfl
            · have := (loopAux_mem_idx o pr n (a + 1) _ rec h).1
              omega
          · simp at h; subst h; rfl

/-- Unfolding of the classifier: a successful module-not-found search
yields a missing-dependency verdict with the aliased name, a failed
search yields a generic verdict. -/
theorem classify_cases (msg : String) :
    (∀ raw, findModule msg.data = some raw →
      classify msg = .missingDependency (aliasPkg (String.mk raw))) ∧
    (findModule msg.data = none → classify msg = .genericFailure msg) := by
  constructor
  · intro raw hraw
    simp [classify, hraw]
  · intro hnone
    simp [classify, hnone]

/-- Per-attempt facts: how the diagnostic is computed from the sandbox
result, how the classifier verdict drives the installer invocation, when
a repair request is issued, and that line 228 (reached whenever the
failure is not resolved by a successful installation) suppresses both
the repair request and the exhausted report when the diagnostic strips
to the empty string. -/
theorem loopAux_rec_facts (o : Oracles) (pr : String) :
    ∀ fuel a c, ∀ rec ∈ (loopAux o pr fuel a c).1,
      (rec.diag = none → o.execStderr rec.idx (attempt_header pr rec.idx ++ rec.body) = none ∧
        rec.installTried = none ∧ rec.repairCalled = none) ∧
      (∀ msg, rec.diag = some msg →
        (∃ stderr, o.execStderr rec.idx (attempt_header pr rec.idx ++ rec.body) = some stderr ∧
          msg = error_msg_of stderr calledProcessStdout) ∧
        (∀ pkg, classify msg = .missingDependency pkg →
          rec.installTried = some (pkg, o.installOk rec.idx pkg)) ∧
        (∀ d, classify msg = .genericFailure d → rec.installTried = none) ∧
        (∀ p, rec.installTried = some (p, true) → rec.repairCalled = none) ∧
        ((rec.installTried = none ∨ ∃ p, rec.installTried = some (p, false)) →
          ((pyStrip msg.data).isEmpty = true → rec.repairCalled = none) ∧
          ((pyStrip msg.data).isEmpty = false →
            (rec.idx < max_retries - 1 →
              rec.repairCalled = some (o.repairBody rec.idx msg rec.body)) ∧
            (max_retries - 1 ≤ rec.idx → rec.repairCalled = none))) ∧
        (∀ p b, rec.installTried = some (p, b) → classify msg = .missingDependency p)) := by
  intro fuel
  induction fuel with
  | zero => intro a c rec h; simp [loopAux] at h
  | succ n ih =>
    intro a c rec h
    simp only [loopAux] at h
    split at h
    · rename_i hexec
      simp at h
      subst h
      refine ⟨fun _ => ⟨hexec, rfl, rfl⟩, fun msg hmsg => ?_⟩
      simp at hmsg
    · rename_i stderr hexec
      split at h
      · rename_i pkg hcl
        split at h
        · rename_i hok
          simp at h
          rcases h with h | h
          · subst h
            constructor
            · intro hd; simp at hd
            · intro msg hmsg
              simp at hmsg
              subst hmsg
              refine ⟨⟨stderr, hexec, rfl⟩, ?_, ?_, ?_, ?_, ?_⟩
              · intro pkg' hcl'
                rw [hcl] at hcl'
                cases hcl'
                simp [hok]
              · intro d hcl'
                rw [hcl] at hcl'
                cases hcl'
              · intro p _
                rfl
              · rintro (hnone | ⟨p, hp⟩)
                · simp at hnone
                · simp at hp
              · intro p b hpb
                simp at hpb
                rw [← hpb.1]
                exact hcl
          · exact ih (a + 1) c rec h
        · rename_i hok
          simp at hok
          split at h
          · rename_i hstrip
            simp at h
            subst h
            constructor
            · intro hd; simp at hd
            · intro msg hmsg
              simp at hmsg
              subst hmsg
              refine ⟨⟨stderr, hexec, rfl⟩, ?_, ?_, ?_, ?_, ?_⟩
              · intro pkg' hcl'
                rw [hcl] at hcl'
                cases hcl'
                simp [hok]
              · intro d hcl'
                rw [hcl] at hcl'
                cases hcl'
              · intro p hp
                simp at hp
              · intro _
                exact ⟨fun _ => rfl, fun hfalse => absurd hstrip (by simp [hfalse])⟩
              · intro p b hpb
                simp at hpb
                rw [← hpb.1]
                exact hcl
          · rename_i hstrip
            split at h
            · rename_i hlt
              simp at h
              rcases h with h | h
              · subst h
                constructor
                · intro hd; simp at hd
                · intro msg hmsg
                  simp at hmsg
                  subst hmsg
                  refine ⟨⟨stderr, hexec, rfl⟩, ?_, ?_, ?_, ?_, ?_⟩
                  · intro pkg' hcl'
                    rw [hcl] at hcl'
                    cases hcl'
                    simp [hok]
                  · intro d hcl'
                    rw [hcl] at hcl'
                    cases hcl'
                  · intro p hp
                    simp at hp
                  · intro _
                    refine ⟨fun htrue => absurd htrue hstrip, fun _ => ⟨fun _ => rfl, fun hge => ?_⟩⟩
                    exfalso
                    revert hge
                    show ¬ max_retries - 1 ≤ a
                    omega
                  · intro p b hpb
                    simp at hpb
                    rw [← hpb.1]
                    exact hcl
              · exact ih (a + 1) _ rec h
            · rename_i hlt
              simp at h
              subst h
              constructor
              · intro hd; simp at hd
              · intro msg hmsg
                simp at hmsg
                subst hmsg
                refine ⟨⟨stderr, hexec, rfl⟩, ?_, ?_, ?_, ?_, ?_⟩
                · intro pkg' hcl'
                  rw [hcl] at hcl'
                  cases hcl'
                  simp [hok]
                · intro d hcl'
                  rw [hcl] at hcl'
                  cases hcl'
                · intro p hp
                  simp at hp
                · intro _
                  refine ⟨fun htrue => absurd htrue hstrip, fun _ => ⟨fun hlt' => ?_, fun _ => rfl⟩⟩
                  exfalso
                  revert hlt'
                  show ¬ (a < max_retries - 1)
                  exact hlt
                · intro p b hpb
                  simp at hpb
                  rw [← hpb.1]
                  exact hcl
      · rename_i d0 hcl
        split at h
        · rename_i hstrip
          simp at h
          subst h
          constructor
          · intro hd; simp at hd
          · intro msg hmsg
            simp at hmsg
            subst hmsg
            refine ⟨⟨stderr, hexec, rfl⟩, ?_, ?_, ?_, ?_, ?_⟩
            · intro pkg' hcl'
              rw [hcl] at hcl'
              cases hcl'
            · intro d hcl'
              rfl
            · intro p hp
              simp at hp
            · intro _
              exact ⟨fun _ => rfl, fun hfalse => absurd hstrip (by simp [hfalse])⟩
            · intro p b hpb
              simp at hpb
        · rename_i hstrip
          split at h
          · rename_i hlt
            simp at h
            rcases h with h | h
            · subst h
              constructor
              · intro hd; simp at hd
              · intro msg hmsg
                simp at hmsg
                subst hmsg
                refine ⟨⟨stderr, hexec, rfl⟩, ?_, ?_, ?_, ?_, ?_⟩
                · intro pkg' hcl'
                  rw [hcl] at hcl'
                  cases hcl'
                · intro d hcl'
                  rfl
                · intro p hp
                  simp at hp
                · intro _
                  refine ⟨fun htrue => absurd htrue hstrip, fun _ => ⟨fun _ => rfl, fun hge => ?_⟩⟩
                  exfalso
                  revert hge
                  show ¬ max_retries - 1 ≤ a
                  omega
                · intro p b hpb
                  simp at hpb
            · exact ih (a + 1) _ rec h
          · rename_i hlt
            simp at h
            subst h
            constructor
            · intro hd; simp at hd
            · intro msg hmsg
              simp at hmsg
              subst hmsg
              refine ⟨⟨stderr, hexec, rfl⟩, ?_, ?_, ?_, ?_, ?_⟩
              · intro pkg' hcl'
                rw [hcl] at hcl'
                cases hcl'
              · intro d hcl'
                rfl
              · intro p hp
                simp at hp
              · intro _
                refine ⟨fun htrue => absurd htrue hstrip, fun _ => ⟨fun hlt' => ?_, fun _ => rfl⟩⟩
                exfalso
                revert hlt'
                show ¬ (a < max_retries - 1)
                exact hlt
              · intro p b hpb
                simp at hpb

/-- Consing onto a nonempty list does not change the last element. -/
theorem getLast?_cons_ne {α : Type} (a : α) (l : List α) (h : l ≠ []) :
    (a :: l).getLast? = l.getLast? := by
  cases l with
  | nil => exact absurd rfl h
  | cons b t => simp

/-- Chaining facts: after a successful installation the next attempt
re-executes the same body, and after a repair request the next attempt
executes the repaired body. -/
theorem loopAux_next_body (o : Oracles) (pr : String) :
    ∀ fuel a c, ∀ rec ∈ (loopAux o pr fuel a c).1, ∀ rec' ∈ (loopAux o pr fuel a c).1,
      rec'.idx = rec.idx + 1 →
      (∀ p, rec.installTried = some (p, true) → rec'.body = rec.body) ∧
      (∀ nb, rec.repairCalled = some nb → rec'.body = nb) := by
  intro fuel
  induction fuel with
  | zero => intro a c rec h; simp [loopAux] at h
  | succ n ih =>
    intro a c rec h rec' h' hidx
    simp only [loopAux] at h h'
    split at h
    · rename_i hexec
      simp only [hexec] at h'
      simp at h h'
      subst h
      subst h'
      simp at hidx
    · rename_i stderr hexec
      simp only [hexec] at h'
      split at h
      · rename_i pkg hcl
        simp only [hcl] at h'
        split at h
        · rename_i hok
          rw [if_pos hok] at h'
          simp at h h'
          rcases h with h | h
          · subst h
            rcases h' with h' | h'
            · subst h'
              simp at hidx
            · refine ⟨fun p _ => ?_, fun nb hnb => ?_⟩
              · exact loopAux_body_at_start o pr n (a + 1) c rec' h' (by simp at hidx; omega)
              · simp at hnb
          · rcases h' with h' | h'
            · exfalso
              have hb := (loopAux_mem_idx o pr n (a + 1) c rec h).1
              subst h'
              revert hidx
              show ¬ (a = rec.idx + 1)
              omega
            · exact ih (a + 1) c rec h rec' h' hidx
        · rename_i hok
          rw [if_neg hok] at h'
          split at h
          · rename_i hstrip
            rw [if_pos hstrip] at h'
            simp at h h'
            subst h
            subst h'
            simp at hidx
          · rename_i hstrip
            rw [if_neg hstrip] at h'
            split at h
            · rename_i hlt
              rw [if_pos hlt] at h'
              simp at h h'
              rcases h with h | h
              · subst h
                rcases h' with h' | h'
                · subst h'
                  simp at hidx
                · refine ⟨fun p hp => ?_, fun nb hnb => ?_⟩
                  · simp at hp
                  · simp at hnb
                    subst hnb
                    exact loopAux_body_at_start o pr n (a + 1) _ rec' h' (by simp at hidx; omega)
              · rcases h' with h' | h'
                · exfalso
                  have hb := (loopAux_mem_idx o pr n (a + 1) _ rec h).1
                  subst h'
                  revert hidx
                  show ¬ (a = rec.idx + 1)
                  omega
                · exact ih (a + 1) _ rec h rec' h' hidx
            · rename_i hlt
              rw [if_neg hlt] at h'
              simp at h h'
              subst h
              subst h'
              simp at hidx
      · rename_i d0 hcl
        simp only [hcl] at h'
        split at h
        · rename_i hstrip
          rw [if_pos hstrip] at h'
          simp at h h'
          subst h
          subst h'
          simp at hidx
        · rename_i hstrip
          rw [if_neg hstrip] at h'
          split at h
          · rename_i hlt
            rw [if_pos hlt] at h'
            simp at h h'
            rcases h with h | h
            · subst h
              rcases h' with h' | h'
              · subst h'
                simp at hidx
              · refine ⟨fun p hp => ?_, fun nb hnb => ?_⟩
                · simp at hp
                · simp at hnb
                  subst hnb
                  exact loopAux_body_at_start o pr n (a + 1) _ rec' h' (by simp at hidx; omega)
            · rcases h' with h' | h'
              · exfalso
                have hb := (loopAux_mem_idx o pr n (a + 1) _ rec h).1
                subst h'
                revert hidx
                show ¬ (a = rec.idx + 1)
                omega
              · exact ih (a + 1) _ rec h rec' h' hidx
          · rename_i hlt
            rw [if_neg hlt] at h'
            simp at h h'
            subst h
            subst h'
            simp at hidx

/-- The loop ends in a non-success outcome — exhaustion (reported or
silent) or the line-228 crash — exactly when every attempt in its record
list carries a failure diagnostic. -/
theorem loopAux_exhausted_iff (o : Oracles) (pr : String) :
    ∀ fuel a c,
      ((∃ r, (loopAux o pr fuel a c).2 = Outcome.exhausted r) ∨
        (∃ d, (loopAux o pr fuel a c).2 = Outcome.crashed d)) ↔
      ∀ rec ∈ (loopAux o pr fuel a c).1, rec.diag ≠ none := by
  intro fuel
  induction fuel with
  | zero => intro a c; simp [loopAux]
  | succ n ih =>
    intro a c
    simp only [loopAux]
    split
    · rename_i hexec
      constructor
      · rintro (⟨r, hr⟩ | ⟨d, hd⟩)
        · simp at hr
        · simp at hd
      · intro hall
        exfalso
        exact hall ⟨a, c, none, none, none⟩ (by simp) rfl
    · rename_i stderr hexec
      split
      · rename_i pkg hcl
        split
        · rename_i hok
          constructor
          · intro hout rec hrec
            simp at hrec
            rcases hrec with hrec | hrec
            · subst hrec; simp
            · exact ((ih (a + 1) c).mp hout) rec hrec
          · intro hall
            refine (ih (a + 1) c).mpr ?_
            intro rec hrec
            exact hall rec (by simp [hrec])
        · split
          · rename_i hstrip
            constructor
            · intro _ rec hrec
              simp at hrec
              subst hrec
              simp
            · intro _
              exact Or.inr ⟨error_msg_of stderr calledProcessStdout, rfl⟩
          · split
            · rename_i hlt
              constructor
              · intro hout rec hrec
                simp at hrec
                rcases hrec with hrec | hrec
                · subst hrec; simp
                · exact ((ih (a + 1) _).mp hout) rec hrec
              · intro hall
                refine (ih (a + 1) _).mpr ?_
                intro rec hrec
                exact hall rec (by simp [hrec])
            · constructor
              · intro _ rec hrec
                simp at hrec
                subst hrec
                simp
              · intro _
                exact Or.inl ⟨some (error_msg_of stderr calledProcessStdout), rfl⟩
      · rename_i d0 hcl
        split
        · rename_i hstrip
          constructor
          · intro _ rec hrec
            simp at hrec
            subst hrec
            simp
          · intro _
            exact Or.inr ⟨error_msg_of stderr calledProcessStdout, rfl⟩
        · split
          · rename_i hlt
            constructor
            · intro hout rec hrec
              simp at hrec
              rcases hrec with hrec | hrec
              · subst hrec; simp
              · exact ((ih (a + 1) _).mp hout) rec hrec
            · intro hall
              refine (ih (a + 1) _).mpr ?_
              intro rec hrec
              exact hall rec (by simp [hrec])
          · constructor
            · intro _ rec hrec
              simp at hrec
              subst hrec
              simp
            · intro _
              exact Or.inl ⟨some (error_msg_of stderr calledProcessStdout), rfl⟩

/-- A reported exhaustion diagnostic is the diagnostic of the last
attempt record. -/
theorem loopAux_last_diag (o : Oracles) (pr : String) :
    ∀ fuel a c d, (loopAux o pr fuel a c).2 = Outcome.exhausted (some d) →
      ∃ rec, (loopAux o pr fuel a c).1.getLast? = some rec ∧ rec.diag = some d := by
  intro fuel
  induction fuel with
  | zero => intro a c d hd; simp [loopAux] at hd
  | succ n ih =>
    intro a c d hd
    cases hexec : o.execStderr a (attempt_header pr a ++ c) with
    | none =>
      simp only [loopAux, hexec] at hd
      simp at hd
    | some stderr =>
      cases hcl : classify (error_msg_of stderr calledProcessStdout) with
      | missingDependency pkg =>
        by_cases hok : o.installOk a pkg = true
        · simp only [loopAux, hexec, hcl, if_pos hok] at hd ⊢
          obtain ⟨rec, hlast, hdiag⟩ := ih (a + 1) c d hd
          refine ⟨rec, ?_, hdiag⟩
          rw [getLast?_cons_ne]
          · exact hlast
          · intro hnil
            rw [hnil] at hlast
            simp at hlast
        · by_cases hstrip : (pyStrip (error_msg_of stderr calledProcessStdout).data).isEmpty = true
          · simp only [loopAux, hexec, hcl, if_neg hok, if_pos hstrip] at hd
            simp at hd
          · by_cases hlt : a < max_retries - 1
            · simp only [loopAux, hexec, hcl, if_neg hok, if_neg hstrip, if_pos hlt] at hd ⊢
              obtain ⟨rec, hlast, hdiag⟩ := ih (a + 1) _ d hd
              refine ⟨rec, ?_, hdiag⟩
              rw [getLast?_cons_ne]
              · exact hlast
              · intro hnil
                rw [hnil] at hlast
                simp at hlast
            · simp only [loopAux, hexec, hcl, if_neg hok, if_neg hstrip, if_neg hlt] at hd ⊢
              simp at hd
              subst hd
              exact ⟨_, rfl, rfl⟩
      | genericFailure d0 =>
        by_cases hstrip : (pyStrip (error_msg_of stderr calledProcessStdout).data).isEmpty = true
        · simp only [loopAux, hexec, hcl, if_pos hstrip] at hd
          simp at hd
        · by_cases hlt : a < max_retries - 1
          · simp only [loopAux, hexec, hcl, if_neg hstrip, if_pos hlt] at hd ⊢
            obtain ⟨rec, hlast, hdiag⟩ := ih (a + 1) _ d hd
            refine ⟨rec, ?_, hdiag⟩
            rw [getLast?_cons_ne]
            · exact hlast
            · intro hnil
              rw [hnil] at hlast
              simp at hlast
          · simp only [loopAux, hexec, hcl, if_neg hstrip, if_neg hlt] at hd ⊢
            simp at hd
            subst hd
            exact ⟨_, rfl, rfl⟩

/-- With at least one remaining attempt the loop records at least one
attempt. -/
theorem loopAux_ne_nil (o : Oracles) (pr : String) :
    ∀ fuel a c, 0 < fuel → (loopAux o pr fuel a c).1 ≠ [] := by
  intro fuel a c hf
  match fuel, hf with
  | n + 1, _ =>
    simp only [loopAux]
    split
    · simp
    · split
      · split
        · simp
        · split
          · simp
          · split
            · simp
            · simp
      · split
        · simp
        · split
          · simp
          · simp

/-- Behaviour of the final attempt (index `max_retries - 1`) when the
fuel is coherent with the attempt index: no repair request is recorded,
and the terminal outcome is silent exhaustion after a successful
installation, the line-228 crash when the diagnostic strips to the empty
string, and the reported exhaustion otherwise. -/
theorem loopAux_final (o : Oracles) (pr : String) :
    ∀ fuel a c, a + fuel = max_retries →
      ∀ rec ∈ (loopAux o pr fuel a c).1, rec.idx = max_retries - 1 →
      ∀ msg, rec.diag = some msg →
        rec.repairCalled = none ∧
        (∀ p, rec.installTried = some (p, true) →
          (loopAux o pr fuel a c).2 = Outcome.exhausted none) ∧
        ((rec.installTried = none ∨ ∃ p, rec.installTried = some (p, false)) →
          ((pyStrip msg.data).isEmpty = true →
            (loopAux o pr fuel a c).2 = Outcome.crashed msg) ∧
          ((pyStrip msg.data).isEmpty = false →
            (loopAux o pr fuel a c).2 = Outcome.exhausted (some msg))) := by
  intro fuel
  induction fuel with
  | zero => intro a c _ rec h; simp [loopAux] at h
  | succ n ih =>
    intro a c hsum rec h hfin msg hmsg
    cases hexec : o.execStderr a (attempt_header pr a ++ c) with
    | none =>
      simp only [loopAux, hexec] at h
      simp at h
      subst h
      simp at hmsg
    | some stderr =>
      cases hcl : classify (error_msg_of stderr calledProcessStdout) with
      | missingDependency pkg =>
        by_cases hok : o.installOk a pkg = true
        · simp only [loopAux, hexec, hcl, if_pos hok] at h ⊢
          simp at h
          rcases h with h | h
          · subst h
            simp at hfin
            have hn : n = 0 := by omega
            subst hn
            refine ⟨rfl, ?_, ?_⟩
            · intro p _
              simp [loopAux]
            · rintro (hnone | ⟨p, hp⟩)
              · simp at hnone
              · simp at hp
          · exact ih (a + 1) c (by omega) rec h hfin msg hmsg
        · by_cases hstrip : (pyStrip (error_msg_of stderr calledProcessStdout).data).isEmpty = true
          · simp only [loopAux, hexec, hcl, if_neg hok, if_pos hstrip] at h ⊢
            simp at h
            subst h
            simp at hmsg
            subst hmsg
            refine ⟨rfl, ?_, ?_⟩
            · intro p hp
              simp at hp
            · intro _
              exact ⟨fun _ => rfl, fun hfalse => absurd hstrip (by simp [hfalse])⟩
          · by_cases hlt : a < max_retries - 1
            · simp only [loopAux, hexec, hcl, if_neg hok, if_neg hstrip, if_pos hlt] at h ⊢
              simp at h
              rcases h with h | h
              · subst h
                simp at hfin
                omega
              · exact ih (a + 1) _ (by omega) rec h hfin msg hmsg
            · simp only [loopAux, hexec, hcl, if_neg hok, if_neg hstrip, if_neg hlt] at h ⊢
              simp at h
              subst h
              simp at hmsg
              subst hmsg
              refine ⟨rfl, ?_, ?_⟩
              · intro p hp
                simp at hp
              · intro _
                exact ⟨fun htrue => absurd htrue hstrip, fun _ => rfl⟩
      | genericFailure d0 =>
        by_cases hstrip : (pyStrip (error_msg_of stderr calledProcessStdout).data).isEmpty = true
        · simp only [loopAux, hexec, hcl, if_pos hstrip] at h ⊢
          simp at h
          subst h
          simp at hmsg
          subst hmsg
          refine ⟨rfl, ?_, ?_⟩
          · intro p hp
            simp at hp
          · intro _
            exact ⟨fun _ => rfl, fun hfalse => absurd hstrip (by simp [hfalse])⟩
        · by_cases hlt : a < max_retries - 1
          · simp only [loopAux, hexec, hcl, if_neg hstrip, if_pos hlt] at h ⊢
            simp at h
            rcases h with h | h
            · subst h
              simp at hfin
              omega
            · exact ih (a + 1) _ (by omega) rec h hfin msg hmsg
          · simp only [loopAux, hexec, hcl, if_neg hstrip, if_neg hlt] at h ⊢
            simp at h
            subst h
            simp at hmsg
            subst hmsg
            refine ⟨rfl, ?_, ?_⟩
            · intro p hp
              simp at hp
            · intro _
              exact ⟨fun htrue => absurd htrue hstrip, fun _ => rfl⟩

/-- Folding writes that all target the same path over a store whose
entries already use that path leaves exactly the last write. -/
theorem foldl_fsWrite_const (k : String) :
    ∀ (ws fs : List (String × String)) (w0 : String × String),
      (∀ w ∈ ws, w.1 = k) → (∀ e ∈ fs, e.1 = k) → ws.getLast? = some w0 →
      ws.foldl fsWrite fs = [w0] := by
  intro ws
  induction ws with
  | nil => intro fs w0 _ _ hlast; simp at hlast
  | cons w rest ih =>
    intro fs w0 hws hfs hlast
    have hw : w.1 = k := hws w (by simp)
    have hstep : fsWrite fs w = [w] := by
      have hfilter : fs.filter (fun e => decide (e.1 ≠ w.1)) = [] := by
        rw [List.filter_eq_nil_iff]
        intro e he
        simp [hfs e he, hw]
      show fs.filter (fun e => decide (e.1 ≠ w.1)) ++ [w] = [w]
      rw [hfilter]
      rfl
    cases rest with
    | nil =>
      simp at hlast
      subst hlast
      simp [hstep]
    | cons w1 rest1 =>
      have hlast1 : (w1 :: rest1).getLast? = some w0 := by
        rw [← hlast]
        simp
      simp only [List.foldl_cons, hstep]
      exact ih [w] w0 (fun x hx => hws x (by simp [hx])) (by simp [hw]) hlast1

/-- Unfolded form of the alias table: an if-chain over the raw module
name. -/
theorem aliasPkg_eq (p : String) :
    aliasPkg p =
      if p = "bs4" then "beautifulsoup4"
      else if p = "sklearn" then "scikit-learn" else p := by
  by_cases h1 : p = "bs4"
  · subst h1; decide
  · by_cases h2 : p = "sklearn"
    · subst h2; decide
    · simp [aliasPkg, h1, h2]

/-- The diagnostic of a failure with uncaptured stdout: stderr, or the
fallback text when stderr is empty. -/
theorem error_msg_of_none (stderr : String) :
    error_msg_of stderr none = if stderr = "" then "Unknown Error" else stderr := by
  by_cases h : stderr = ""
  · simp [error_msg_of, h]
  · simp [error_msg_of, h]

/-- An empty strip result means every character of the input is
whitespace. -/
theorem pyStrip_eq_nil_imp (s : List Char) (h : pyStrip s = []) :
    ∀ c ∈ s, pyIsSpace c = true := by
  simp only [pyStrip] at h
  rw [List.reverse_eq_nil_iff, List.dropWhile_eq_nil_iff] at h
  intro c hc
  by_cases hsp : pyIsSpace c = true
  · exact hsp
  · exfalso
    have hsplit : s.takeWhile pyIsSpace ++ s.dropWhile pyIsSpace = s :=
      List.takeWhile_append_dropWhile pyIsSpace s
    rw [← hsplit] at hc
    rcases List.mem_append.mp hc with h1 | h1
    · exact hsp (List.mem_takeWhile_imp h1)
    · exact hsp (h c (List.mem_reverse.mpr h1))

/-- A successful module-not-found search implies the diagnostic contains
the capital letter M of the pattern text. -/
theorem findModule_mem_M : ∀ s raw, findModule s = some raw → 'M' ∈ s := by
  intro s
  induction s with
  | nil => intro raw h; simp [findModule] at h
  | cons c rest ih =>
    intro raw h
    simp only [findModule] at h
    split at h
    · rename_i hpre
      have hp : mnfPrefix <+: (c :: rest) := by simpa using hpre
      have hm : 'M' ∈ mnfPrefix := by decide
      exact hp.subset hm
    · rename_i hpre
      exact List.mem_cons_of_mem c (ih raw h)

/-- A diagnostic matched by the module-not-found search never strips to
the empty string, so line 228 cannot raise on it. -/
theorem findModule_strip_false (msg : String) (raw : List Char)
    (hm : findModule msg.data = some raw) : (pyStrip msg.data).isEmpty = false := by
  cases hst : (pyStrip msg.data).isEmpty with
  | false => rfl
  | true =>
    exfalso
    have hnil : pyStrip msg.data = [] := List.isEmpty_iff.mp hst
    have hall := pyStrip_eq_nil_imp msg.data hnil
    exact absurd (hall 'M' (findModule_mem_M msg.data raw hm)) (by decide)

/-- C1 counterexample: with every attempt failing on a missing module
and every installation succeeding, the final attempt's execution fails
(its record carries a diagnostic), no repair request is ever issued, yet
the loop terminates exhausted WITHOUT reporting the final diagnostic —
refuting the claim that the loop always terminates reporting `Exhausted`
with the diagnostic of the failing final attempt. -/
theorem c1_counterexample :
    (⟨3, "print(1)", some msgMissingX, some ("x", true), none⟩ : AttemptRec) ∈
      (run_agent_loop oMiss "t").1 ∧
    (run_agent_loop oMiss "t").2 = Outcome.exhausted none ∧
    (run_agent_loop oMiss "t").2 ≠ Outcome.exhausted (some msgMissingX) := by
  refine ⟨by decide, by decide, by decide⟩

/-- C1 (amended): whenever the final permitted attempt's execution fails,
no repair request is made on that attempt.  The loop terminates reporting
`Exhausted` with the diagnostic from that final attempt unless (a) the
final failure was classified as a missing dependency and its installation
succeeded, in which case the loop terminates exhausted without reporting
a diagnostic, or (b) the diagnostic strips to the empty string
(a nonempty all-whitespace stderr), in which case line 228 raises an
uncaught `IndexError` and the run aborts with no report at all. -/
theorem c1_amended (o : Oracles) (pr : String) (rec : AttemptRec)
    (hrec : rec ∈ (run_agent_loop o pr).1) (hfin : rec.idx = max_retries - 1)
    (msg : String) (hmsg : rec.diag = some msg) :
    rec.repairCalled = none ∧
    (∀ p, rec.installTried = some (p, true) →
      (run_agent_loop o pr).2 = Outcome.exhausted none) ∧
    ((rec.installTried = none ∨ ∃ p, rec.installTried = some (p, false)) →
      ((pyStrip msg.data).isEmpty = true →
        (run_agent_loop o pr).2 = Outcome.crashed msg) ∧
      ((pyStrip msg.data).isEmpty = false →
        (run_agent_loop o pr).2 = Outcome.exhausted (some msg))) :=
  loopAux_final o pr max_retries 0 o.initBody (Nat.zero_add _) rec hrec hfin msg hmsg

/-- C1 witness: a concrete exhausted run in which the final attempt's
failure is handled generically and the final diagnostic is reported. -/
theorem c1_witness :
    (⟨3, "b3", some "boom", none, none⟩ : AttemptRec).repairCalled = none ∧
    (run_agent_loop oGen "t").2 = Outcome.exhausted (some "boom") := by
  have h := c1_amended oGen "t" ⟨3, "b3", some "boom", none, none⟩ (by decide) (by decide)
    "boom" rfl
  exact ⟨h.1, (h.2.2 (Or.inl rfl)).2 (by decide)⟩

/-- C2 counterexample: a run whose only attempt fails with an
all-whitespace stderr has no successful attempt, yet it ends with the
line-228 crash — neither the reported exhaustion nor even the silent
exhausted outcome — refuting the claim that every all-failing run ends
with an exhaustion report. -/
theorem c2_counterexample :
    (run_agent_loop oWsStderr "t").1 = [⟨0, "print(1)", some " ", none, none⟩] ∧
    (run_agent_loop oWsStderr "t").2 = Outcome.crashed " " ∧
    (run_agent_loop oWsStderr "t").2 ≠ Outcome.exhausted (some " ") ∧
    (run_agent_loop oWsStderr "t").2 ≠ Outcome.exhausted none := by
  refine ⟨by decide, by decide, by decide, by decide⟩

/-- C2 (amended): every recorded attempt index stays below the
configured maximum of 4, and the run ends without success — reporting
`Exhausted`, falling off the loop silently, or aborting in the line-228
crash — exactly when no attempt within the budget executed successfully.
The exhaustion report itself therefore occurs only in runs where no
attempt succeeded, but an all-failing run may instead end silently or in
the crash. -/
theorem c2_budget_and_exhaustion (o : Oracles) (pr : String) :
    (∀ rec ∈ (run_agent_loop o pr).1, rec.idx < max_retries) ∧
    (((∃ r, (run_agent_loop o pr).2 = Outcome.exhausted r) ∨
      (∃ d, (run_agent_loop o pr).2 = Outcome.crashed d)) ↔
      ∀ rec ∈ (run_agent_loop o pr).1, rec.diag ≠ none) := by
  constructor
  · intro rec h
    have hb := (loopAux_mem_idx o pr max_retries 0 o.initBody rec h).2
    omega
  · exact loopAux_exhausted_iff o pr max_retries 0 o.initBody

/-- C2 witness: the bound and the exhaustion equivalence evaluated on a
concrete all-failing run. -/
theorem c2_witness :
    (⟨0, "b0", some "boom", none, some "b1"⟩ : AttemptRec).idx < max_retries ∧
    ((∃ r, (run_agent_loop oGen "t").2 = Outcome.exhausted r) ∨
      (∃ d, (run_agent_loop oGen "t").2 = Outcome.crashed d)) := by
  constructor
  · exact (c2_budget_and_exhaustion oGen "t").1 ⟨0, "b0", some "boom", none, some "b1"⟩ (by decide)
  · exact ((c2_budget_and_exhaustion oGen "t").2).mpr (by decide)

/-- C3: when an attempt's failure is classified as a missing dependency
and the installation succeeds, the next attempt (when one exists)
executes the identical body, and no model repair request is issued at
the end of that attempt. -/
theorem c3_install_retry_same_body (o : Oracles) (pr : String) (rec rec' : AttemptRec)
    (p : String) (hrec : rec ∈ (run_agent_loop o pr).1)
    (hinst : rec.installTried = some (p, true))
    (hrec' : rec' ∈ (run_agent_loop o pr).1) (hidx : rec'.idx = rec.idx + 1) :
    rec'.body = rec.body ∧ rec.repairCalled = none := by
  refine ⟨(loopAux_next_body o pr max_retries 0 o.initBody rec hrec rec' hrec' hidx).1 p hinst, ?_⟩
  have hfacts := loopAux_rec_facts o pr max_retries 0 o.initBody rec hrec
  cases hdiag : rec.diag with
  | none =>
    exfalso
    have hi := (hfacts.1 hdiag).2.1
    rw [hi] at hinst
    cases hinst
  | some msg =>
    exact (hfacts.2 msg hdiag).2.2.2.1 p hinst

/-- C3 witness: a concrete run in which attempt 0 fails on a missing
module, installation succeeds, and attempt 1 re-runs the same body. -/
theorem c3_witness :
    (⟨1, "print(1)", none, none, none⟩ : AttemptRec).body =
      (⟨0, "print(1)", some msgMissingX, some ("x", true), none⟩ : AttemptRec).body ∧
    (⟨0, "print(1)", some msgMissingX, some ("x", true), none⟩ : AttemptRec).repairCalled = none := by
  exact c3_install_retry_same_body oInstallThenOk "t"
    ⟨0, "print(1)", some msgMissingX, some ("x", true), none⟩
    ⟨1, "print(1)", none, none, none⟩ "x" (by decide) rfl (by decide) rfl

/-- C4: an attempt's failure diagnostic is classified as a missing
dependency exactly when the module-not-found search succeeds, in which
case the installer is invoked with the module name mapped through the
alias table (`bs4` to `beautifulsoup4`, `sklearn` to `scikit-learn`,
raw otherwise); when the search fails no installer call is recorded and
the failure is handled generically. -/
theorem c4_classifier (o : Oracles) (pr : String) (rec : AttemptRec)
    (hrec : rec ∈ (run_agent_loop o pr).1) (msg : String) (hmsg : rec.diag = some msg) :
    (∀ raw, findModule msg.data = some raw →
      rec.installTried = some
        ((if String.mk raw = "bs4" then "beautifulsoup4"
          else if String.mk raw = "sklearn" then "scikit-learn" else String.mk raw),
         o.installOk rec.idx (aliasPkg (String.mk raw)))) ∧
    (findModule msg.data = none → rec.installTried = none) := by
  have hfacts := (loopAux_rec_facts o pr max_retries 0 o.initBody rec hrec).2 msg hmsg
  constructor
  · intro raw hraw
    have hcl := (classify_cases msg).1 raw hraw
    have hi := hfacts.2.1 (aliasPkg (String.mk raw)) hcl
    rw [hi, aliasPkg_eq]
  · intro hnone
    exact hfacts.2.2.1 msg ((classify_cases msg).2 hnone)

/-- C4 witness: the aliasing evaluated on a concrete missing-module run:
module name `x` has no alias and is installed raw. -/
theorem c4_witness :
    (⟨0, "print(1)", some msgMissingX, some ("x", true), none⟩ : AttemptRec).installTried =
      some ("x", true) := by
  have h := (c4_classifier oMiss "t" ⟨0, "print(1)", some msgMissingX, some ("x", true), none⟩
    (by decide) msgMissingX rfl).1 ['x'] (by decide)
  exact h.trans (by decide)

/-- C5: after the loop terminates, applying its write sequence to an
empty store leaves exactly one artifact, at the path derived from the
task text, whose content is the two header comment lines — the task text
and the mode tag, `Generated` for attempt 0 and `Auto-Debugged` for
later attempts — followed by the last candidate body attempted. -/
theorem c5_artifact (o : Oracles) (pr : String) :
    ∃ rec, (run_agent_loop o pr).1.getLast? = some rec ∧
      fsAfter (writesOf pr (run_agent_loop o pr).1) =
        [(artifactPath pr,
          "# TASK: " ++ pr ++ "\n# MODE: " ++
            (if rec.idx > 0 then "Auto-Debugged" else "Generated") ++ "\n" ++ rec.body)] := by
  have hne : (run_agent_loop o pr).1 ≠ [] :=
    loopAux_ne_nil o pr max_retries 0 o.initBody (by decide)
  cases hlast : (run_agent_loop o pr).1.getLast? with
  | none =>
    exact absurd (List.getLast?_eq_none_iff.mp hlast) hne
  | some rec =>
    refine ⟨rec, rfl, ?_⟩
    have hkeys : ∀ w ∈ writesOf pr (run_agent_loop o pr).1, w.1 = artifactPath pr := by
      intro w hw
      simp only [writesOf, List.mem_map] at hw
      obtain ⟨r, _, hr⟩ := hw
      rw [← hr]
    have hlastw : (writesOf pr (run_agent_loop o pr).1).getLast? =
        some (artifactPath pr, attempt_header pr rec.idx ++ rec.body) := by
      simp only [writesOf, List.getLast?_map, hlast]
      rfl
    exact foldl_fsWrite_const (artifactPath pr) _ [] _ hkeys (by simp) hlastw

/-- C6 counterexample: a run that terminates with the `Exhausted`
outcome, invoked as a command, exits with status 0 — refuting the claim
that exhaustion maps to a non-zero process exit. -/
theorem c6_counterexample :
    (runMain oGen ["agent.py", "t"]).1 = 0 ∧
    (runMain oGen ["agent.py", "t"]).2 = some (run_agent_loop oGen "t") ∧
    (run_agent_loop oGen "t").2 = Outcome.exhausted (some "boom") := by
  exact ⟨rfl, rfl, by decide⟩

/-- C6 (amended): when run as a command with a task argument, a run that
terminates with the `Exhausted` outcome (and likewise a successful run)
exits with status 0 — exhaustion is not mapped to a non-zero exit; only
the line-228 crash ends the process with status 1.  Any reported
exhaustion diagnostic is surfaced verbatim: it is exactly the final
attempt's diagnostic. -/
theorem c6_amended (o : Oracles) (prog prompt : String) (rest : List String) :
    (∀ r, (run_agent_loop o prompt).2 = Outcome.exhausted r →
      (runMain o (prog :: prompt :: rest)).1 = 0) ∧
    (∀ k, (run_agent_loop o prompt).2 = Outcome.succeeded k →
      (runMain o (prog :: prompt :: rest)).1 = 0) ∧
    (∀ d, (run_agent_loop o prompt).2 = Outcome.crashed d →
      (runMain o (prog :: prompt :: rest)).1 = 1) ∧
    (∀ d, (run_agent_loop o prompt).2 = Outcome.exhausted (some d) →
      ∃ rec, (run_agent_loop o prompt).1.getLast? = some rec ∧ rec.diag = some d) := by
  refine ⟨?_, ?_, ?_, fun d hd => loopAux_last_diag o prompt max_retries 0 o.initBody d hd⟩
  · intro r hr
    simp [runMain, hr]
  · intro k hk
    simp [runMain, hk]
  · intro d hd
    simp [runMain, hd]

/-- C6 witness: a concrete exhausted run exits 0 and reports the final
attempt's diagnostic; a concrete crashing run exits 1. -/
theorem c6_witness :
    (runMain oGen ["agent.py", "t"]).1 = 0 ∧
    (runMain oWsStderr ["agent.py", "t"]).1 = 1 ∧
    ∃ rec, (run_agent_loop oGen "t").1.getLast? = some rec ∧ rec.diag = some "boom" := by
  refine ⟨?_, ?_, ?_⟩
  · exact (c6_amended oGen "agent.py" "t" []).1 (some "boom") (by decide)
  · exact (c6_amended oWsStderr "agent.py" "t" []).2.2.1 " " (by decide)
  · exact (c6_amended oGen "agent.py" "t" []).2.2.2 "boom" (by decide)

/-- C7: an attempt whose missing-dependency installation fails falls
through to generic handling: a repair request with that attempt's
diagnostic and body is issued when a later attempt remains, and on the
final attempt the loop terminates reporting `Exhausted` with that
diagnostic and no repair request.  (A missing-dependency diagnostic
contains the `ModuleNotFoundError` text, so it never strips to the empty
string and line 228 cannot raise on this path.) -/
theorem c7_install_failure_generic (o : Oracles) (pr : String) (rec : AttemptRec) (p : String)
    (hrec : rec ∈ (run_agent_loop o pr).1) (hinst : rec.installTried = some (p, false)) :
    ∃ msg, rec.diag = some msg ∧
      (rec.idx < max_retries - 1 →
        rec.repairCalled = some (o.repairBody rec.idx msg rec.body)) ∧
      (max_retries - 1 ≤ rec.idx →
        (run_agent_loop o pr).2 = Outcome.exhausted (some msg) ∧ rec.repairCalled = none) := by
  have hfacts := loopAux_rec_facts o pr max_retries 0 o.initBody rec hrec
  cases hdiag : rec.diag with
  | none =>
    exfalso
    have hi := (hfacts.1 hdiag).2.1
    rw [hi] at hinst
    cases hinst
  | some msg =>
    have hcl := (hfacts.2 msg hdiag).2.2.2.2.2 p false hinst
    have hraw : ∃ raw, findModule msg.data = some raw := by
      cases hfm : findModule msg.data with
      | some raw => exact ⟨raw, rfl⟩
      | none =>
        rw [(classify_cases msg).2 hfm] at hcl
        cases hcl
    obtain ⟨raw, hraw⟩ := hraw
    have hstrip := findModule_strip_false msg raw hraw
    have hgen := (hfacts.2 msg hdiag).2.2.2.2.1 (Or.inr ⟨p, hinst⟩)
    refine ⟨msg, rfl, ?_, ?_⟩
    · intro hlt
      exact (hgen.2 hstrip).1 hlt
    · intro hge
      have hidx : rec.idx = max_retries - 1 := by
        have hb := (loopAux_mem_idx o pr max_retries 0 o.initBody rec hrec).2
        omega
      have hfin := loopAux_final o pr max_retries 0 o.initBody (Nat.zero_add _) rec hrec hidx
        msg hdiag
      exact ⟨(hfin.2.2 (Or.inr ⟨p, hinst⟩)).2 hstrip, hfin.1⟩

/-- C7 witness: a concrete failed installation on a non-final attempt
leads to a repair request with the repaired body. -/
theorem c7_witness :
    (⟨0, "print(1)", some msgMissingX, some ("x", false), some "repaired"⟩ : AttemptRec).repairCalled =
      some (oInstallFail.repairBody 0 msgMissingX "print(1)") := by
  obtain ⟨msg, hmsg, hlt, _⟩ := c7_install_failure_generic oInstallFail "t"
    ⟨0, "print(1)", some msgMissingX, some ("x", false), some "repaired"⟩ "x" (by decide) rfl
  have hmsg2 : msg = msgMissingX := by
    simpa using hmsg.symm
  have h := hlt (by decide)
  rw [hmsg2] at h
  exact h

/-- C8 counterexample: when the captured stderr is empty the diagnostic
is the literal `Unknown Error`; there is no captured stdout at all (it is
inherited live), so the diagnostic cannot be the captured stdout —
refuting the claimed fallback. -/
theorem c8_counterexample :
    error_msg_of "" calledProcessStdout = "Unknown Error" ∧
    calledProcessStdout = none ∧
    ¬ ∃ s : String, calledProcessStdout = some s ∧
      error_msg_of "" calledProcessStdout = s := by
  refine ⟨rfl, rfl, ?_⟩
  rintro ⟨s, hs, _⟩
  simp [calledProcessStdout] at hs

/-- C8 (amended): a failing attempt's diagnostic is the captured
standard error, falling back to the literal text `Unknown Error` when
the standard error is empty; standard output is inherited live and never
captured, so it never contributes to the diagnostic. -/
theorem c8_amended (o : Oracles) (pr : String) (rec : AttemptRec)
    (hrec : rec ∈ (run_agent_loop o pr).1) :
    calledProcessStdout = none ∧
    rec.diag = (o.execStderr rec.idx (attempt_header pr rec.idx ++ rec.body)).map
      (fun e => if e = "" then "Unknown Error" else e) := by
  refine ⟨rfl, ?_⟩
  have hfacts := loopAux_rec_facts o pr max_retries 0 o.initBody rec hrec
  cases hdiag : rec.diag with
  | none =>
    rw [(hfacts.1 hdiag).1]
    rfl
  | some msg =>
    obtain ⟨stderr, hexec, hmsg⟩ := (hfacts.2 msg hdiag).1
    rw [hexec]
    rw [hmsg]
    exact congrArg some (error_msg_of_none stderr)

/-- C8 witness: a concrete empty-stderr failure whose recorded diagnostic
is the fallback text. -/
theorem c8_witness :
    calledProcessStdout = none ∧
    (⟨0, "print(1)", some "Unknown Error", none, some "repaired"⟩ : AttemptRec).diag =
      (oEmptyStderr.execStderr 0 (attempt_header "t" 0 ++ "print(1)")).map
        (fun e => if e = "" then "Unknown Error" else e) :=
  c8_amended oEmptyStderr "t" ⟨0, "print(1)", some "Unknown Error", none, some "repaired"⟩
    (by decide)

/-- A successful lazy interior capture decomposes the input as the
interior followed by a closing fence. -/
theorem takeUntilFence_sound :
    ∀ s i, takeUntilFence s = some i → ∃ t, s = i ++ fence ++ t := by
  intro s
  induction s with
  | nil => intro i h; simp [takeUntilFence] at h
  | cons c rest ih =>
    intro i h
    simp only [takeUntilFence] at h
    split at h
    · rename_i hpre
      simp at h
      subst h
      have hp : fence <+: (c :: rest) := by simpa using hpre
      obtain ⟨t, ht⟩ := hp
      exact ⟨t, by simp [← ht]⟩
    · rename_i hpre
      cases hr : takeUntilFence rest with
      | none => rw [hr] at h; simp at h
      | some i0 =>
        rw [hr] at h
        simp at h
        subst h
        obtain ⟨t, ht⟩ := ih i0 hr
        exact ⟨t, by simp [ht]⟩

/-- A successful fenced-block search decomposes the input as some
leading text, an opening fence with optional language tag, the captured
interior, and a closing fence. -/
theorem findFenced_sound :
    ∀ s i, findFenced s = some i →
      ∃ pre opn t, s = pre ++ opn ++ i ++ fence ++ t ∧
        (opn = fence ∨ opn = fence ++ pyTag) := by
  intro s
  induction s with
  | nil => intro i h; simp [findFenced] at h
  | cons c rest ih =>
    intro i h
    simp only [findFenced] at h
    split at h
    · rename_i hpre
      have hp : fence <+: (c :: rest) := by simpa using hpre
      obtain ⟨r, hr⟩ := hp
      have hdrop : (c :: rest).drop fence.length = r := by
        rw [← hr]
        exact List.drop_left fence r
      rw [hdrop] at h
      by_cases hpy : pyTag.isPrefixOf r = true
      · rw [if_pos hpy] at h
        have hp2 : pyTag <+: r := by simpa using hpy
        obtain ⟨r2, hr2⟩ := hp2
        have hdrop2 : r.drop pyTag.length = r2 := by
          rw [← hr2]
          exact List.drop_left pyTag r2
        rw [hdrop2] at h
        cases htf : takeUntilFence r2 with
        | none =>
          rw [htf] at h
          simp at h
          obtain ⟨pre, opn, t, hs, hopn⟩ := ih i h
          exact ⟨c :: pre, opn, t, by simp [hs], hopn⟩
        | some i0 =>
          rw [htf] at h
          simp at h
          subst h
          obtain ⟨t, ht⟩ := takeUntilFence_sound r2 i0 htf
          refine ⟨[], fence ++ pyTag, t, ?_, Or.inr rfl⟩
          rw [← hr, ← hr2, ht]
          simp
      · rw [if_neg hpy] at h
        cases htf : takeUntilFence r with
        | none =>
          rw [htf] at h
          simp at h
          obtain ⟨pre, opn, t, hs, hopn⟩ := ih i h
          exact ⟨c :: pre, opn, t, by simp [hs], hopn⟩
        | some i0 =>
          rw [htf] at h
          simp at h
          subst h
          obtain ⟨t, ht⟩ := takeUntilFence_sound r i0 htf
          refine ⟨[], fence, t, ?_, Or.inl rfl⟩
          rw [← hr, ht]
          simp
    · rename_i hpre
      obtain ⟨pre, opn, t, hs, hopn⟩ := ih i h
      exact ⟨c :: pre, opn, t, by simp [hs], hopn⟩

/-- A successful fenced-block search implies the fence marker occurs in
the input. -/
theorem findFenced_marker :
    ∀ s i, findFenced s = some i → occursB fence s = true := by
  intro s
  induction s with
  | nil => intro i h; simp [findFenced] at h
  | cons c rest ih =>
    intro i h
    simp only [findFenced] at h
    split at h
    · rename_i hpre
      simp [occursB, hpre]
    · rename_i hpre
      simp [occursB, ih i h]

/-- C9 counterexample: for the raw response consisting of `x` surrounded
by spaces, no fence marker is present, yet the accepted candidate body is
the stripped text `x`, not the raw text — refuting the claim that the
body is the raw text whenever no fence marker is present. -/
theorem c9_counterexample :
    occursB fence (" x ").data = false ∧
    query_llm_extract " x " = "x" ∧
    ("x" : String) ≠ " x " := by
  refine ⟨by decide, by decide, by decide⟩

/-- C9 (amended): the candidate body accepted by the core is the
whitespace-stripped interior of the first complete fenced code block
(opening fence, optional language tag, closing fence) when the search
finds one, and the whitespace-stripped raw text otherwise; in particular
when no fence marker occurs at all the search fails and the stripped raw
text is used. -/
theorem c9_amended (raw : String) :
    (occursB fence raw.data = false →
      findFenced raw.data = none ∧
      query_llm_extract raw = String.mk (pyStrip raw.data)) ∧
    (∀ i, findFenced raw.data = some i →
      query_llm_extract raw = String.mk (pyStrip i) ∧
      ∃ pre opn t, raw.data = pre ++ opn ++ i ++ fence ++ t ∧
        (opn = fence ∨ opn = fence ++ pyTag)) := by
  constructor
  · intro hocc
    have hnone : findFenced raw.data = none := by
      cases hf : findFenced raw.data with
      | none => rfl
      | some i =>
        rw [findFenced_marker raw.data i hf] at hocc
        cases hocc
    exact ⟨hnone, by simp [query_llm_extract, hnone]⟩
  · intro i hf
    exact ⟨by simp [query_llm_extract, hf], findFenced_sound raw.data i hf⟩

/-- C9 witness: a complete fenced block with a language tag yields its
stripped interior. -/
theorem c9_witness :
    query_llm_extract "```python\nprint(1)\n```" = "print(1)" := by
  have h := (c9_amended "```python\nprint(1)\n```").2 (("\nprint(1)\n").data) (by decide)
  exact h.1.trans (by decide)

/-- The boolean substring test agrees with the infix relation. -/
theorem occursB_iff (n : List Char) : ∀ h, occursB n h = true ↔ n <:+: h := by
  intro h
  induction h with
  | nil => simp [occursB, List.isEmpty_iff]
  | cons c t ih => simp [occursB, ih, List.infix_cons_iff]

/-- String-level substring test agrees with the infix relation on the
underlying character lists. -/
theorem strOccurs_iff (n h : String) : strOccurs n h = true ↔ n.data <:+: h.data :=
  occursB_iff n.data h.data

/-- A newline-free prefix of `a ++ newline :: b` is a prefix of `a`. -/
theorem prefix_nl : ∀ (a b n : List Char), '\n' ∉ n → n <+: a ++ '\n' :: b → n <+: a := by
  intro a
  induction a with
  | nil =>
    intro b n hnl hp
    simp only [List.nil_append] at hp
    rcases List.prefix_cons_iff.mp hp with h | ⟨t, ht, _⟩
    · subst h
      exact List.nil_prefix
    · exfalso
      apply hnl
      rw [ht]
      simp
  | cons c a' ih =>
    intro b n hnl hp
    rw [List.cons_append] at hp
    rcases List.prefix_cons_iff.mp hp with h | ⟨t, ht, htp⟩
    · subst h
      exact List.nil_prefix
    · subst ht
      have hnl' : '\n' ∉ t := fun hm => hnl (by simp [hm])
      have := ih b t hnl' htp
      simp [this]

/-- A newline-free infix of `a ++ newline :: b` lies inside `a` or
inside `b`. -/
theorem infix_nl : ∀ (a b n : List Char), '\n' ∉ n → n <:+: a ++ '\n' :: b →
    n <:+: a ∨ n <:+: b := by
  intro a
  induction a with
  | nil =>
    intro b n hnl hi
    simp only [List.nil_append] at hi
    rcases List.infix_cons_iff.mp hi with h | h
    · left
      have h2 := prefix_nl [] b n hnl (by simpa using h)
      exact List.IsPrefix.isInfix h2
    · right
      exact h
  | cons c a' ih =>
    intro b n hnl hi
    rw [List.cons_append] at hi
    rcases List.infix_cons_iff.mp hi with h | h
    · left
      exact List.IsPrefix.isInfix (prefix_nl (c :: a') b n hnl (by rwa [List.cons_append]))
    · rcases ih b n hnl h with h2 | h2
      · left
        exact List.infix_cons h2
      · right
        exact h2

/-- Unfolding of the newline join on a list with at least two entries. -/
theorem joinNl_cons_cons (s t : String) (r : List String) :
    joinNl (s :: t :: r) = s ++ "\n" ++ joinNl (t :: r) := rfl

/-- Character-level form of the previous unfolding. -/
theorem joinNl_data_cons_cons (s t : String) (r : List String) :
    (joinNl (s :: t :: r)).data = s.data ++ '\n' :: (joinNl (t :: r)).data := by
  rw [joinNl_cons_cons]
  simp [show ("\n" : String).data = ['\n'] from rfl]

/-- Every member of the joined list occurs in the join. -/
theorem mem_joinNl (s : String) : ∀ l : List String, s ∈ l → s.data <:+: (joinNl l).data := by
  intro l
  induction l with
  | nil => intro h; simp at h
  | cons x rest ih =>
    intro h
    cases rest with
    | nil =>
      simp at h
      subst h
      exact List.infix_refl _
    | cons y r =>
      rw [joinNl_data_cons_cons]
      rcases List.mem_cons.mp h with h | h
      · subst h
        exact List.IsPrefix.isInfix (List.prefix_append s.data ('\n' :: (joinNl (y :: r)).data))
      · refine (ih h).trans ( List.IsSuffix.isInfix ⟨x.data ++ ['\n'], ?_⟩)
        simp

/-- A nonempty newline-free infix of the join of newline-free strings
lies inside one of them. -/
theorem infix_joinNl : ∀ (l : List String), (∀ s ∈ l, '\n' ∉ s.data) →
    ∀ n : List Char, '\n' ∉ n → n ≠ [] → n <:+: (joinNl l).data →
    ∃ s ∈ l, n <:+: s.data := by
  intro l
  induction l with
  | nil =>
    intro _ n _ hne h
    exact absurd (List.infix_nil.mp h) hne
  | cons x rest ih =>
    intro hl n hn hne h
    cases rest with
    | nil =>
      exact ⟨x, by simp, h⟩
    | cons y r =>
      rw [joinNl_data_cons_cons] at h
      rcases infix_nl _ _ _ hn h with h2 | h2
      · exact ⟨x, by simp, h2⟩
      · obtain ⟨s, hs, hocc⟩ := ih (fun s hs => hl s (by simp [hs])) n hn hne h2
        exact ⟨s, by simp [hs], hocc⟩

/-- Table facts: no keyword or statement of the import table contains a
newline, and no keyword is empty. -/
theorem common_libs_wf :
    ∀ p ∈ common_libs, '\n' ∉ p.1.data ∧ '\n' ∉ p.2.data ∧ p.1.data ≠ [] := by decide

/-- Table fact: the only keyword of the table occurring inside any
statement of the table is the keyword of that same entry (concretely,
`BeautifulSoup` inside its own import statement). -/
theorem common_libs_kw_in_stmt :
    ∀ p ∈ common_libs, ∀ q ∈ common_libs,
      occursB p.1.data q.2.data = true → p.1 = q.1 := by decide

/-- C10: the import-injection normalization is idempotent. -/
theorem c10_fix_imports_idempotent (code : String) :
    fix_imports (fix_imports code) = fix_imports code := by
  by_cases hinj :
      ((common_libs.filter (fun p => strOccurs p.1 code && !(strOccurs p.2 code))).map
        Prod.snd).isEmpty = true
  · have h1 : fix_imports code = code := by
      simp only [fix_imports]
      rw [if_pos hinj]
    rw [h1]
    exact h1
  · have h1 : fix_imports code =
        joinNl ((common_libs.filter
            (fun p => strOccurs p.1 code && !(strOccurs p.2 code))).map Prod.snd) ++
          "\n\n" ++ code := by
      simp only [fix_imports]
      rw [if_neg hinj]
    set inj := (common_libs.filter
      (fun p => strOccurs p.1 code && !(strOccurs p.2 code))).map Prod.snd with hinjdef
    have hdata : (joinNl inj ++ "\n\n" ++ code).data =
        (joinNl inj).data ++ '\n' :: ('\n' :: code.data) := by
      simp [show ("\n\n" : String).data = ['\n', '\n'] from rfl]
    have hinj_stmt : ∀ stmt ∈ inj, ∃ q, q ∈ common_libs ∧
        strOccurs q.1 code = true ∧ strOccurs q.2 code = false ∧ q.2 = stmt := by
      intro stmt hstmt
      rw [hinjdef] at hstmt
      simp only [List.mem_map, List.mem_filter] at hstmt
      obtain ⟨q, ⟨hqmem, hqsel⟩, hq2⟩ := hstmt
      rw [Bool.and_eq_true, Bool.not_eq_true'] at hqsel
      exact ⟨q, hqmem, hqsel.1, hqsel.2, hq2⟩
    have hfilter2 : (common_libs.filter
        (fun p => strOccurs p.1 (joinNl inj ++ "\n\n" ++ code) &&
          !(strOccurs p.2 (joinNl inj ++ "\n\n" ++ code)))) = [] := by
      rw [List.filter_eq_nil_iff]
      intro p hp
      rw [Bool.and_eq_true, Bool.not_eq_true']
      rintro ⟨hkw, hstmt⟩
      by_cases hstc : strOccurs p.2 code = true
      · have hin : p.2.data <:+: (joinNl inj ++ "\n\n" ++ code).data := by
          rw [hdata]
          refine ((strOccurs_iff _ _).mp hstc).trans ( List.IsSuffix.isInfix ?_)
          exact ⟨(joinNl inj).data ++ ['\n', '\n'], by simp⟩
        rw [(strOccurs_iff _ _).mpr hin] at hstmt
        cases hstmt
      · by_cases hkwc : strOccurs p.1 code = true
        · have hpin : p.2 ∈ inj := by
            rw [hinjdef]
            simp only [List.mem_map, List.mem_filter]
            refine ⟨p, ⟨hp, ?_⟩, rfl⟩
            rw [Bool.and_eq_true, Bool.not_eq_true']
            exact ⟨hkwc, by simpa using hstc⟩
          have hin : p.2.data <:+: (joinNl inj ++ "\n\n" ++ code).data := by
            rw [hdata]
            exact (mem_joinNl p.2 inj hpin).trans ( List.IsPrefix.isInfix (List.prefix_append _ _))
          rw [(strOccurs_iff _ _).mpr hin] at hstmt
          cases hstmt
        · have hkwi := (strOccurs_iff _ _).mp hkw
          rw [hdata] at hkwi
          rcases infix_nl _ _ _ (common_libs_wf p hp).1 hkwi with h2 | h2
          · have hstmts_nl : ∀ s ∈ inj, '\n' ∉ s.data := by
              intro s hs
              obtain ⟨q, hqmem, _, _, hq2⟩ := hinj_stmt s hs
              rw [← hq2]
              exact (common_libs_wf q hqmem).2.1
            obtain ⟨stmt, hstmem, hocc⟩ := infix_joinNl inj hstmts_nl p.1.data
              (common_libs_wf p hp).1 (common_libs_wf p hp).2.2 h2
            obtain ⟨q, hqmem, hq1, _, hq2eq⟩ := hinj_stmt stmt hstmem
            have hoccq : occursB p.1.data q.2.data = true := by
              rw [hq2eq]
              exact (occursB_iff _ _).mpr hocc
            have hpq := common_libs_kw_in_stmt p hp q hqmem hoccq
            rw [hpq] at hkwc
            exact hkwc hq1
          · rcases infix_nl [] code.data p.1.data (common_libs_wf p hp).1
                (by simpa using h2) with h3 | h3
            · exact (common_libs_wf p hp).2.2 (List.infix_nil.mp h3)
            · exact hkwc ((strOccurs_iff _ _).mpr h3)
    have h2 : fix_imports (joinNl inj ++ "\n\n" ++ code) =
        joinNl inj ++ "\n\n" ++ code := by
      simp only [fix_imports]
      rw [hfilter2]
      rfl
    rw [h1]
    exact h2

end Agent
